import Mathlib

/-!
TinyLink: verification of the code-assignment and redirect-resolution engine.

Shallow embedding of the TinyLink URL-shortener server (Express + Postgres).
JavaScript strings are modelled as `List Char` so that every operation the
server performs on them (trim, prefix test, split, concatenation, regex
character-class tests) is a structurally recursive, kernel-computable
function.  The `links` table is a list of rows; each SQL statement becomes a
pure function on that list.  External effects (the WHATWG URL parser, DNS
resolution, `nanoid` draws, `Math.random`) are passed in as explicit oracle
parameters, so every handler is a deterministic function of its inputs and
oracles.
-/

namespace TinyLink

/-- JavaScript strings, as character lists. -/
abbrev Str := List Char

/-- Whitespace for `String.prototype.trim` (the whitespace characters that
occur in practice; `trim` strips them from both ends). -/
def wsChar (c : Char) : Bool :=
  c == ' ' || c == '\t' || c == '\n' || c == '\r'

/-- Model of `s.trim()`: drop whitespace from both ends. -/
def trimChars (s : Str) : Str :=
  ((s.dropWhile wsChar).reverse.dropWhile wsChar).reverse

/-- JavaScript number-to-string coercion for a natural number: its decimal
digits, most significant first (fuel-indexed so it computes by `decide`). -/
def decimalAux : Nat → Nat → Str
  | 0, _ => []
  | fuel + 1, n =>
    if n < 10 then [Nat.digitChar n]
    else decimalAux fuel (n / 10) ++ [Nat.digitChar (n % 10)]

/-- Decimal rendering of a natural number, as produced by string
concatenation with a JS number. -/
def decimal (n : Nat) : Str := decimalAux (n + 1) n

/-- Model of `s.split(".")`, specialised to the single-character separator
the server uses on hostnames. -/
def splitOnDot : Str → List Str
  | [] => [[]]
  | c :: rest =>
    let r := splitOnDot rest
    if c == '.' then [] :: r
    else
      match r with
      | [] => [[c]]
      | h :: t => (c :: h) :: t

/-- Model of `s.startsWith(p)` for a one-character pattern. -/
def startsWithChar (s : Str) (c : Char) : Bool :=
  match s with
  | [] => false
  | d :: _ => d == c

/-- Model of `s.endsWith(p)` for a one-character pattern. -/
def endsWithChar (s : Str) (c : Char) : Bool :=
  match s.getLast? with
  | some d => d == c
  | none => false

/-- A row of the `links` table: columns `code` (unique), `target_url`,
`total_clicks` (default 0), `last_clicked` (nullable), `created_at`,
`deleted` (default false).  Timestamps are abstract `Nat` instants. -/
structure Link where
  code : Str
  target_url : Str
  total_clicks : Nat
  last_clicked : Option Nat
  created_at : Nat
  deleted : Bool
deriving Repr, DecidableEq

/-- The `links` table. -/
abbrev Store := List Link

/-- Well-formedness enforced by the storage layer: the unique constraint on
`code` means no two rows share a code. -/
def Wf (s : Store) : Prop := (s.map Link.code).Nodup

instance (s : Store) : Decidable (Wf s) := by
  unfold Wf
  infer_instance

/-- Whether `SELECT 1 FROM links WHERE code = $1` returned a row (covers
deleted and live rows alike). -/
def existsCode (s : Store) (c : Str) : Bool :=
  s.any fun l => l.code == c

/-- Statement `INSERT INTO links(code, target_url) VALUES ($1, $2)`: the unique
constraint rejects a duplicate code (Postgres error 23505, modelled as
`none`); otherwise a fresh row with `total_clicks = 0`,
`last_clicked = NULL`, `created_at = now`, `deleted = false` is added. -/
def insertRow (s : Store) (code url : Str) (now : Nat) : Option Store :=
  if existsCode s code then none
  else some (s ++ [{ code := code, target_url := url, total_clicks := 0,
                     last_clicked := none, created_at := now, deleted := false }])

/-- The per-row effect of the resolve handler's
`UPDATE links SET total_clicks = total_clicks + 1, last_clicked = now()
WHERE code = $1 AND deleted = false`. -/
def bump (c : Str) (now : Nat) (r : Link) : Link :=
  if r.code = c ∧ r.deleted = false then
    { r with total_clicks := r.total_clicks + 1, last_clicked := some now }
  else r

/-- Handler `app.get("/:code")`: runs the atomic `UPDATE ... RETURNING target_url`;
the first component is the redirect target (`none` means the 404 branch,
taken when `rowCount === 0`), the second the table afterwards. -/
def resolve (s : Store) (c : Str) (now : Nat) : Option Str × Store :=
  ((s.find? fun r => decide (r.code = c ∧ r.deleted = false)).map Link.target_url,
   s.map (bump c now))

/-- Handler `app.post("/delete/:code")`: `UPDATE links SET deleted = true WHERE
code = $1`; no row is removed and no error is surfaced for a missing code. -/
def mark_deleted (s : Store) (c : Str) : Store :=
  s.map fun r => if r.code = c then { r with deleted := true } else r

/-- N consecutive visits of the same code: the table after iterating the
resolve handler N times. -/
def resolveN (c : Str) (now : Nat) : Nat → Store → Store
  | 0, s => s
  | n + 1, s => resolveN c now n (resolve s c now).2

/-- Whether all N iterated resolve calls hit the redirect branch (i.e. none
of them took the 404 branch). -/
def resolveNAllOk (c : Str) (now : Nat) : Nat → Store → Bool
  | 0, _ => true
  | n + 1, s => (resolve s c now).1.isSome && resolveNAllOk c now n (resolve s c now).2

/-- The click counter the table shows for a code. -/
def clicksOf (s : Store) (c : Str) : Option Nat :=
  (s.find? fun r => r.code == c).map Link.total_clicks

/-- One character of the custom-code character class `[A-Za-z0-9]`. -/
def alnumChar (ch : Char) : Bool :=
  ch.isAlpha || ch.isDigit

/-- The custom-code syntax test `/^[A-Za-z0-9]{3,8}$/.test(code)`. -/
def validateCustom (code : Str) : Bool :=
  decide (3 ≤ code.length) && decide (code.length ≤ 8) && code.all alnumChar

/-- The fields of a parsed WHATWG URL that the validator inspects. -/
structure URLParts where
  protocol : Str
  hostname : Str

/-- One character of the hostname character class `[a-zA-Z0-9.-]`. -/
def hostnameCharOk (ch : Char) : Bool :=
  ch.isAlpha || ch.isDigit || ch == '.' || ch == '-'

/-- The per-label loop body of `isValidUrlResolved`: a label must be
non-empty and must not start or end with a hyphen. -/
def labelOk (lab : Str) : Bool :=
  !lab.isEmpty && !startsWithChar lab '-' && !endsWithChar lab '-'

/-- Validator `isValidUrlResolved(urlString)`: parse with `new URL` (the parser is the
oracle `parse`; `none` models a thrown `TypeError`), require an `http:` or
`https:` protocol, run the hostname checks, then consult DNS (the oracle
`dns` models `dns.promises.lookup` succeeding). -/
def isValidUrlResolved (parse : Str → Option URLParts) (dns : Str → Bool)
    (urlString : Str) : Bool :=
  match parse urlString with
  | none => false
  | some url =>
    if !(url.protocol == "http:".toList || url.protocol == "https:".toList) then false
    else
      let hostname := url.hostname
      if hostname.isEmpty || !hostname.contains '.' then false
      else if endsWithChar hostname '.' then false
      else if !(hostname.all hostnameCharOk) then false
      else if !((splitOnDot hostname).all labelOk) then false
      else dns hostname

/-- The normalisation step of `app.post("/shorten")`: trim the raw input,
then prepend `https://` when neither `http://` nor `https://` is a prefix. -/
def normalizeUrl (raw : Str) : Str :=
  let t := trimChars raw
  if !("http://".toList.isPrefixOf t) && !("https://".toList.isPrefixOf t) then
    "https://".toList ++ t
  else t

/-- The candidate loop of the auto-generate branch: up to `fuel` rounds,
starting with draw number `i`, return the first `nano()` draw that is not
already present. -/
def genLoopAux (s : Store) (draw : Nat → Str) : Nat → Nat → Option Str
  | _, 0 => none
  | i, fuel + 1 =>
    if existsCode s (draw i) then genLoopAux s draw (i + 1) fuel
    else some (draw i)

/-- The auto-generate branch of `app.post("/shorten")`: try 10 fresh
`nano()` draws; if every one of them is already present, fall back to one
more fresh draw with `Math.floor(Math.random() * 1000)` appended in
decimal. -/
def genCode (s : Store) (draw : Nat → Str) (suffix : Nat) : Str :=
  match genLoopAux s draw 0 10 with
  | some c => c
  | none => draw 10 ++ decimal suffix

/-- Outcome of `app.post("/shorten")`.  The error constructors are the
handler's distinct error renders; `ok` carries the assigned code and the
table after the `INSERT`. -/
inductive ShortenResult where
  | missingUrl
  | invalidUrl
  | badCodeFormat
  | codeTaken
  | insertCollision
  | ok (code : Str) (store : Store)
deriving Repr, DecidableEq

/-- The shared `INSERT` tail of both shorten branches; a unique-constraint
violation (23505) renders the collision error. -/
def shortenInsert (s : Store) (code url : Str) (now : Nat) : ShortenResult :=
  match insertRow s code url now with
  | some s2 => .ok code s2
  | none => .insertCollision

/-- Handler `app.post("/shorten")`: require a URL, normalise and validate it, then
either take the trimmed non-blank custom code through the syntax and
existence checks, or auto-generate a code, and insert.  (`code` is `null` in
the handler exactly when `customCode` is absent or trims to blank; that
null test is written here as the branch structure.) -/
def shorten (parse : Str → Option URLParts) (dns : Str → Bool)
    (draw : Nat → Str) (suffix : Nat) (now : Nat) (s : Store)
    (fullUrl : Option Str) (customCode : Option Str) : ShortenResult :=
  match fullUrl with
  | none => .missingUrl
  | some fu =>
    if fu.isEmpty then .missingUrl
    else if !isValidUrlResolved parse dns (normalizeUrl fu) then .invalidUrl
    else
      match customCode with
      | some cc =>
        if (trimChars cc).isEmpty then
          shortenInsert s (genCode s draw suffix) (normalizeUrl fu) now
        else if !validateCustom (trimChars cc) then .badCodeFormat
        else if existsCode s (trimChars cc) then .codeTaken
        else shortenInsert s (trimChars cc) (normalizeUrl fu) now
      | none => shortenInsert s (genCode s draw suffix) (normalizeUrl fu) now

end TinyLink

namespace TinyLink

/-- Demo row used by closed witness statements. -/
def rowAbc : Link :=
  { code := "abc".toList, target_url := "https://example.com/".toList,
    total_clicks := 5, last_clicked := some 7, created_at := 1, deleted := false }

/-- A second demo row, already soft-deleted. -/
def rowOld : Link :=
  { code := "old42".toList, target_url := "https://old.example.com/".toList,
    total_clicks := 9, last_clicked := some 3, created_at := 0, deleted := true }

/-- A small demo table. -/
def demoStore : Store := [rowAbc, rowOld]

/-- The row a demo insert creates. -/
def rowNew : Link :=
  { code := "new1".toList, target_url := "https://n.example.com/".toList,
    total_clicks := 0, last_clicked := none, created_at := 4, deleted := false }

/-- A demo `nanoid` stream that always draws `qqqqqq` (free in the demo
table). -/
def drawQ : Nat → Str := fun _ => "qqqqqq".toList

/-- A demo `nanoid` stream that always draws `aaaaaa` (taken in
`storeColl`), forcing the fallback branch. -/
def drawC : Nat → Str := fun _ => "aaaaaa".toList

/-- The row that makes every `drawC` draw collide. -/
def rowAaa : Link :=
  { code := "aaaaaa".toList, target_url := "https://a.example.com/".toList,
    total_clicks := 0, last_clicked := none, created_at := 2, deleted := false }

/-- A table on which all ten generator draws of `drawC` collide. -/
def storeColl : Store := [rowAaa]

/-- The row the fallback branch inserts on `storeColl` with suffix 999. -/
def rowCex : Link :=
  { code := "aaaaaa999".toList, target_url := "https://example.com".toList,
    total_clicks := 0, last_clicked := none, created_at := 5, deleted := false }

/-- The row a demo custom-code shorten inserts. -/
def rowXyz : Link :=
  { code := "xyz12".toList, target_url := "https://example.com".toList,
    total_clicks := 0, last_clicked := none, created_at := 5, deleted := false }

/-- A demo URL-parser oracle: every input parses to an `https:` URL with
hostname `example.com`. -/
def parseGood : Str → Option URLParts :=
  fun _ => some { protocol := "https:".toList, hostname := "example.com".toList }

/-- A demo DNS oracle on which every hostname resolves. -/
def dnsYes : Str → Bool := fun _ => true

/-- A demo URL-parser oracle yielding an `ftp:` URL, for exercising the
protocol check. -/
def parseFtp : Str → Option URLParts :=
  fun _ => some { protocol := "ftp:".toList, hostname := "example.com".toList }

/-- A demo URL-parser oracle yielding a hostname whose first label starts
with a hyphen. -/
def parseBadHost : Str → Option URLParts :=
  fun _ => some { protocol := "https:".toList, hostname := "-a.b".toList }

/-- The row a demo shorten call on raw input `example.com:443/path`
inserts: the target URL keeps the explicit default port. -/
def rowPort : Link :=
  { code := "qqqqqq".toList, target_url := "https://example.com:443/path".toList,
    total_clicks := 0, last_clicked := none, created_at := 5, deleted := false }

/-- The row a demo shorten call on the padded raw input ` example.com`
inserts. -/
def rowTrim : Link :=
  { code := "qqqqqq".toList, target_url := "https://example.com".toList,
    total_clicks := 0, last_clicked := none, created_at := 5, deleted := false }

/-- The row the whitespace-padded custom code ` abc` ends up creating. -/
def rowAbcPad : Link :=
  { code := "abc".toList, target_url := "https://example.com".toList,
    total_clicks := 0, last_clicked := none, created_at := 5, deleted := false }

/-- Modelled from the spec: the fully serialized absolute URL — explicit
scheme and host, path and query preserved, and the default ports (80 for
`http`, 443 for `https`) omitted from the serialization.  The server itself
never re-serializes; this definition exists to compare the spec's promised
output against what the code stores. -/
def serializeUrl (scheme host : Str) (port : Option Nat) (path : Str) : Str :=
  scheme ++ "://".toList ++ host ++
    (match port with
     | none => []
     | some p =>
       if (scheme = "http".toList ∧ p = 80) ∨ (scheme = "https".toList ∧ p = 443) then []
       else ':' :: decimal p) ++
  path

/-- Splitting a well-formed table at its head: the head's code occurs in no
later row, and the tail is well-formed. -/
theorem wf_cons {r : Link} {rest : Store} (h : Wf (r :: rest)) :
    r.code ∉ rest.map Link.code ∧ Wf rest := by
  simpa [Wf] using h

/-- In a well-formed table, the lookup by code finds exactly the member row
carrying that code. -/
theorem find_code_of_mem {s : Store} {l : Link} (hwf : Wf s) (hl : l ∈ s) :
    s.find? (fun r => r.code == l.code) = some l := by
  induction s with
  | nil => cases hl
  | cons r rest ih =>
    rcases List.mem_cons.mp hl with h | h
    · subst h
      simp [List.find?_cons_of_pos]
    · have hw := wf_cons hwf
      have hne : (r.code == l.code) = false := by
        refine beq_eq_false_iff_ne.mpr fun he => ?_
        exact hw.1 (he ▸ List.mem_map_of_mem Link.code h)
      rw [List.find?_cons_of_neg _ (by simp [hne]), ih hw.2 h]

/-- In a well-formed table, the live-row lookup used by the resolve handler
finds exactly the member row carrying that code, provided it is live. -/
theorem find_live_of_mem {s : Store} {l : Link} (hwf : Wf s) (hl : l ∈ s)
    (hd : l.deleted = false) :
    s.find? (fun r => decide (r.code = l.code ∧ r.deleted = false)) = some l := by
  induction s with
  | nil => cases hl
  | cons r rest ih =>
    rcases List.mem_cons.mp hl with h | h
    · subst h
      exact List.find?_cons_of_pos _ (by simp [hd])
    · have hw := wf_cons hwf
      have hne : r.code ≠ l.code := fun he =>
        hw.1 (he ▸ List.mem_map_of_mem Link.code h)
      rw [List.find?_cons_of_neg _ (by simp [hne]), ih hw.2 h]

/-- When every row carrying the requested code is soft-deleted (in
particular when no row carries it), the live-row lookup comes back empty. -/
theorem find_live_none {s : Store} {c : Str}
    (h : ∀ l ∈ s, l.code = c → l.deleted = true) :
    s.find? (fun r => decide (r.code = c ∧ r.deleted = false)) = none := by
  refine List.find?_eq_none.mpr fun r hr => ?_
  simp only [decide_eq_true_eq, not_and]
  intro h1 h2
  rw [h r hr h1] at h2
  cases h2

/-- When every row carrying the requested code is soft-deleted, the resolve
handler's `UPDATE` touches no row. -/
theorem bump_map_id {s : Store} {c : Str} {now : Nat}
    (h : ∀ l ∈ s, l.code = c → l.deleted = true) :
    s.map (bump c now) = s := by
  have hid : ∀ l ∈ s, bump c now l = id l := by
    intro l hl
    simp only [bump, id_eq, ite_eq_right_iff, and_imp]
    intro h1 h2
    rw [h l hl h1] at h2
    cases h2
  rw [List.map_congr_left hid, List.map_id]

/-- C1: on a well-formed table, `resolve` succeeds exactly when a live
(non-deleted) row with the requested code exists; in that case it returns
the stored `target_url`, increments that row's `total_clicks`, stamps its
`last_clicked`, and leaves rows with other codes untouched; otherwise —
whether the code is soft-deleted or was never registered, the two being
indistinguishable — it returns the 404 result and leaves the table exactly
as it was. -/
theorem resolve_spec (s : Store) (c : Str) (now : Nat) (hwf : Wf s) :
    ((∃ l ∈ s, l.code = c ∧ l.deleted = false) ↔ (resolve s c now).1 ≠ none) ∧
    (∀ l ∈ s, l.code = c → l.deleted = false →
      (resolve s c now).1 = some l.target_url ∧
      { l with total_clicks := l.total_clicks + 1, last_clicked := some now }
        ∈ (resolve s c now).2 ∧
      ∀ m ∈ s, m.code ≠ c → m ∈ (resolve s c now).2) ∧
    ((∀ l ∈ s, l.code = c → l.deleted = true) → resolve s c now = (none, s)) := by
  have main : ∀ l ∈ s, l.code = c → l.deleted = false →
      (resolve s c now).1 = some l.target_url ∧
      { l with total_clicks := l.total_clicks + 1, last_clicked := some now }
        ∈ (resolve s c now).2 ∧
      ∀ m ∈ s, m.code ≠ c → m ∈ (resolve s c now).2 := by
    intro l hl hc hd
    subst hc
    refine ⟨?_, ?_, ?_⟩
    · unfold resolve
      rw [find_live_of_mem hwf hl hd]
      rfl
    · simp only [resolve]
      refine List.mem_map.mpr ⟨l, hl, ?_⟩
      simp [bump, hd]
    · intro m hm hmc
      simp only [resolve]
      refine List.mem_map.mpr ⟨m, hm, ?_⟩
      simp [bump, hmc]
  have dead : (∀ l ∈ s, l.code = c → l.deleted = true) → resolve s c now = (none, s) := by
    intro h
    unfold resolve
    rw [find_live_none h, bump_map_id h]
    rfl
  refine ⟨?_, main, dead⟩
  constructor
  · rintro ⟨l, hl, hc, hd⟩
    rw [(main l hl hc hd).1]
    simp
  · intro hne
    by_contra hno
    have h : ∀ l ∈ s, l.code = c → l.deleted = true := by
      intro l hl hc
      rcases Bool.eq_false_or_eq_true l.deleted with hb | hb
      · exact hb
      · exact absurd ⟨l, hl, hc, hb⟩ hno
    rw [dead h] at hne
    exact hne rfl

/-- C1 witness: on the demo table, resolving the live code redirects and
bumps the counter; resolving the soft-deleted code and resolving an
unregistered code give the identical 404 outcome with the table unchanged. -/
theorem resolve_spec_witness :
    (resolve demoStore "abc".toList 9).1 = some "https://example.com/".toList ∧
    { rowAbc with total_clicks := rowAbc.total_clicks + 1, last_clicked := some 9 }
      ∈ (resolve demoStore "abc".toList 9).2 ∧
    resolve demoStore "old42".toList 9 = (none, demoStore) ∧
    resolve demoStore "nosuchcode".toList 9 = (none, demoStore) :=
  ⟨((resolve_spec demoStore "abc".toList 9 (by decide)).2.1 rowAbc (by decide)
      (by decide) (by decide)).1,
   ((resolve_spec demoStore "abc".toList 9 (by decide)).2.1 rowAbc (by decide)
      (by decide) (by decide)).2.1,
   (resolve_spec demoStore "old42".toList 9 (by decide)).2.2 (by decide),
   (resolve_spec demoStore "nosuchcode".toList 9 (by decide)).2.2 (by decide)⟩

/-- The resolve handler's `UPDATE` never rewrites the `code` column. -/
theorem bump_code (c : Str) (now : Nat) (r : Link) : (bump c now r).code = r.code := by
  unfold bump
  split <;> rfl

/-- The resolve handler's `UPDATE` never rewrites the `deleted` column. -/
theorem bump_deleted (c : Str) (now : Nat) (r : Link) :
    (bump c now r).deleted = r.deleted := by
  unfold bump
  split <;> rfl

/-- The resolve handler's `UPDATE` never rewrites the `target_url` column. -/
theorem bump_url (c : Str) (now : Nat) (r : Link) :
    (bump c now r).target_url = r.target_url := by
  unfold bump
  split <;> rfl

/-- Resolving preserves the unique-code well-formedness of the table. -/
theorem wf_resolve {s : Store} (c : Str) (now : Nat) (hwf : Wf s) :
    Wf (resolve s c now).2 := by
  unfold Wf resolve
  simp only [List.map_map]
  have hc : ∀ r ∈ s, (Link.code ∘ bump c now) r = Link.code r := fun r _ => bump_code c now r
  rw [List.map_congr_left hc]
  exact hwf

/-- Iterating the resolve handler on a live code: each call succeeds and the
counter advances by exactly one per call. -/
theorem resolveN_clicks {c : Str} {now : Nat} :
    ∀ (N : Nat) (s : Store) (l : Link), Wf s → l ∈ s → l.code = c → l.deleted = false →
      clicksOf (resolveN c now N s) c = some (l.total_clicks + N) ∧
      resolveNAllOk c now N s = true := by
  intro N
  induction N with
  | zero =>
    intro s l hwf hl hc hd
    subst hc
    refine ⟨?_, rfl⟩
    simp [clicksOf, resolveN, find_code_of_mem hwf hl]
  | succ n ih =>
    intro s l hwf hl hc hd
    subst hc
    have hmem : bump l.code now l ∈ (resolve s l.code now).2 :=
      List.mem_map.mpr ⟨l, hl, rfl⟩
    have hcode : (bump l.code now l).code = l.code := bump_code _ _ _
    have hdel : (bump l.code now l).deleted = false := (bump_deleted _ _ _).trans hd
    have hclk : (bump l.code now l).total_clicks = l.total_clicks + 1 := by
      simp [bump, hd]
    have hwf2 : Wf (resolve s l.code now).2 := wf_resolve _ _ hwf
    obtain ⟨h1, h2⟩ := ih (resolve s l.code now).2 (bump l.code now l) hwf2 hmem hcode hdel
    refine ⟨?_, ?_⟩
    · show clicksOf (resolveN l.code now n (resolve s l.code now).2) l.code = _
      rw [h1, hclk]
      congr 1
      omega
    · show ((resolve s l.code now).1.isSome && resolveNAllOk l.code now n _) = true
      have hsome : (resolve s l.code now).1 = some l.target_url := by
        unfold resolve
        rw [find_live_of_mem hwf hl hd]
        rfl
      rw [h2, hsome]
      rfl

/-- C2: on a well-formed table, N iterated resolve calls on a live code all
succeed and leave its `total_clicks` at its previous value plus N; a resolve
call never decreases any row's counter and leaves it unchanged unless the
row is the live row being resolved; `mark_deleted` never changes a counter;
and an insert leaves all existing rows untouched, the new row starting at
`total_clicks = 0`. -/
theorem total_clicks_spec (s : Store) (c : Str) (now N : Nat) (hwf : Wf s) :
    (∀ l ∈ s, l.code = c → l.deleted = false →
      clicksOf (resolveN c now N s) c = some (l.total_clicks + N) ∧
      resolveNAllOk c now N s = true) ∧
    (∀ c₂ now₂, List.Forall₂
      (fun a b => a.code = b.code ∧ a.total_clicks ≤ b.total_clicks ∧
        (¬(a.code = c₂ ∧ a.deleted = false) → b.total_clicks = a.total_clicks))
      s (resolve s c₂ now₂).2) ∧
    (∀ c₂, List.Forall₂
      (fun a b => a.code = b.code ∧ b.total_clicks = a.total_clicks)
      s (mark_deleted s c₂)) ∧
    (∀ code url now₂ s₂, insertRow s code url now₂ = some s₂ →
      ∃ r, s₂ = s ++ [r] ∧ r.total_clicks = 0) := by
  refine ⟨fun l hl hc hd => resolveN_clicks N s l hwf hl hc hd, ?_, ?_, ?_⟩
  · intro c₂ now₂
    show List.Forall₂ _ s ((s.map (bump c₂ now₂)))
    rw [List.forall₂_map_right_iff]
    refine List.forall₂_same.mpr fun a _ => ?_
    refine ⟨(bump_code c₂ now₂ a).symm, ?_, ?_⟩
    · unfold bump
      split <;> simp
    · intro hno
      unfold bump
      split
      · exact absurd (by assumption) hno
      · rfl
  · intro c₂
    unfold mark_deleted
    rw [List.forall₂_map_right_iff]
    refine List.forall₂_same.mpr fun a _ => ?_
    constructor
    · split <;> rfl
    · split <;> rfl
  · intro code url now₂ s₂ hins
    unfold insertRow at hins
    split at hins
    · cases hins
    · injection hins with h
      exact ⟨_, h.symm, rfl⟩

/-- C2 witness: three visits to the live demo code all succeed and move its
counter from 5 to 8; deleting never changes counters; a fresh insert keeps
the old rows and starts the new row at zero clicks. -/
theorem total_clicks_spec_witness :
    clicksOf (resolveN "abc".toList 9 3 demoStore) "abc".toList =
      some (rowAbc.total_clicks + 3) ∧
    resolveNAllOk "abc".toList 9 3 demoStore = true ∧
    ∃ r, insertRow demoStore "new1".toList "https://n.example.com/".toList 4 =
      some (demoStore ++ [r]) ∧ r.total_clicks = 0 :=
  ⟨((total_clicks_spec demoStore "abc".toList 9 3 (by decide)).1 rowAbc (by decide)
      (by decide) (by decide)).1,
   ((total_clicks_spec demoStore "abc".toList 9 3 (by decide)).1 rowAbc (by decide)
      (by decide) (by decide)).2,
   by
    obtain ⟨r, hr, hz⟩ := (total_clicks_spec demoStore "abc".toList 9 3 (by decide)).2.2.2
      "new1".toList "https://n.example.com/".toList 4 (demoStore ++ [rowNew]) (by decide)
    exact ⟨r, by rw [← hr]; decide, hz⟩⟩

/-- C5: the custom-code syntax check accepts a code iff it consists solely of
ASCII letters and digits and has length between 3 and 8 inclusive, i.e. it
matches `[A-Za-z0-9]{3,8}` exactly. -/
theorem validateCustom_iff_alnum_len (code : Str) :
    validateCustom code = true ↔
      (3 ≤ code.length ∧ code.length ≤ 8 ∧
        ∀ ch ∈ code,
          ('A' ≤ ch ∧ ch ≤ 'Z') ∨ ('a' ≤ ch ∧ ch ≤ 'z') ∨ ('0' ≤ ch ∧ ch ≤ '9')) := by
  simp only [validateCustom, Bool.and_eq_true, decide_eq_true_eq, List.all_eq_true,
    and_assoc]
  refine and_congr_right fun _ => and_congr_right fun _ => ?_
  refine forall_congr' fun ch => forall_congr' fun _ => ?_
  simp only [alnumChar, Char.isAlpha, Char.isUpper, Char.isLower, Char.isDigit,
    Bool.or_eq_true, Bool.and_eq_true, decide_eq_true_eq]
  constructor
  · rintro ((⟨h1, h2⟩ | ⟨h1, h2⟩) | ⟨h1, h2⟩)
    · exact Or.inl ⟨h1, h2⟩
    · exact Or.inr (Or.inl ⟨h1, h2⟩)
    · exact Or.inr (Or.inr ⟨h1, h2⟩)
  · rintro (⟨h1, h2⟩ | ⟨h1, h2⟩ | ⟨h1, h2⟩)
    · exact Or.inl (Or.inl ⟨h1, h2⟩)
    · exact Or.inl (Or.inr ⟨h1, h2⟩)
    · exact Or.inr ⟨h1, h2⟩

/-- C7: `mark_deleted` is idempotent, is a no-op on a missing code, flips the
matching row to `deleted = true` while retaining its counters, and leaves
every other row untouched. -/
theorem mark_deleted_spec (s : Store) (c : Str) :
    mark_deleted (mark_deleted s c) c = mark_deleted s c ∧
    ((∀ l ∈ s, l.code ≠ c) → mark_deleted s c = s) ∧
    (∀ l ∈ s, l.code = c → { l with deleted := true } ∈ mark_deleted s c) ∧
    (∀ l ∈ s, l.code ≠ c → l ∈ mark_deleted s c) := by
  refine ⟨?_, ?_, ?_, ?_⟩
  · simp only [mark_deleted, List.map_map]
    refine List.map_congr_left fun l _ => ?_
    by_cases h : l.code = c <;> simp [h]
  · intro h
    simp only [mark_deleted]
    have hid : ∀ l ∈ s, (if l.code = c then { l with deleted := true } else l) = id l := by
      intro l hl
      simp [h l hl]
    rw [List.map_congr_left hid, List.map_id]
  · intro l hl hc
    simp only [mark_deleted]
    refine List.mem_map.mpr ⟨l, hl, ?_⟩
    simp [hc]
  · intro l hl hc
    simp only [mark_deleted]
    refine List.mem_map.mpr ⟨l, hl, ?_⟩
    simp [hc]

set_option maxRecDepth 10000 in
/-- A JS number in 0–999 renders as one to three decimal digit characters. -/
theorem decimal_bounds : ∀ n, n < 1000 →
    1 ≤ (decimal n).length ∧ (decimal n).length ≤ 3 ∧
    (decimal n).all Char.isDigit = true := by
  decide

/-- Decimal digits lie in the `[A-Za-z0-9]` class. -/
theorem digit_alnum {ch : Char} (h : ch.isDigit = true) : alnumChar ch = true := by
  simp [alnumChar, h]

/-- If some draw within the remaining fuel is free, the candidate loop stops
at the first free draw. -/
theorem genLoopAux_free (s : Store) (draw : Nat → Str) :
    ∀ fuel i, (∃ k < fuel, existsCode s (draw (i + k)) = false) →
      ∃ k < fuel, genLoopAux s draw i fuel = some (draw (i + k)) ∧
        existsCode s (draw (i + k)) = false ∧
        ∀ m < k, existsCode s (draw (i + m)) = true := by
  intro fuel
  induction fuel with
  | zero =>
    rintro i ⟨k, hk, _⟩
    exact absurd hk (Nat.not_lt_zero k)
  | succ f ih =>
    rintro i ⟨k, hk, hfree⟩
    rcases hb : existsCode s (draw i) with hf | ht
    · refine ⟨0, Nat.succ_pos f, ?_, by rwa [Nat.add_zero], fun m hm => absurd hm (Nat.not_lt_zero m)⟩
      simp [genLoopAux, hb]
    · have hk0 : k ≠ 0 := by
        intro h
        subst h
        rw [Nat.add_zero, hb] at hfree
        cases hfree
      obtain ⟨k', rfl⟩ : ∃ k', k = k' + 1 := ⟨k - 1, by omega⟩
      have hfree2 : existsCode s (draw (i + 1 + k')) = false := by
        rw [show i + 1 + k' = i + (k' + 1) by omega]
        exact hfree
      obtain ⟨k₂, hk₂, hres, hfree₃, hall⟩ := ih (i + 1) ⟨k', by omega, hfree2⟩
      refine ⟨k₂ + 1, by omega, ?_, ?_, ?_⟩
      · rw [show i + (k₂ + 1) = i + 1 + k₂ by omega]
        simpa [genLoopAux, hb] using hres
      · rw [show i + (k₂ + 1) = i + 1 + k₂ by omega]
        exact hfree₃
      · intro m hm
        cases m with
        | zero => rwa [Nat.add_zero]
        | succ m =>
          rw [show i + (m + 1) = i + 1 + m by omega]
          exact hall m (by omega)

/-- If every draw within the remaining fuel collides, the candidate loop
runs out empty. -/
theorem genLoopAux_none (s : Store) (draw : Nat → Str) :
    ∀ fuel i, (∀ k < fuel, existsCode s (draw (i + k)) = true) →
      genLoopAux s draw i fuel = none := by
  intro fuel
  induction fuel with
  | zero => intro i _; rfl
  | succ f ih =>
    intro i h
    have h0 : existsCode s (draw i) = true := by
      have := h 0 (Nat.succ_pos f)
      rwa [Nat.add_zero] at this
    have hrest : ∀ k < f, existsCode s (draw (i + 1 + k)) = true := by
      intro k hk
      have := h (k + 1) (by omega)
      rwa [show i + (k + 1) = i + 1 + k by omega] at this
    simp only [genLoopAux, h0, if_true]
    exact ih (i + 1) hrest

/-- Unfolding the `INSERT` tail of the shorten handler on success: the new
table is the old one with a fresh row carrying the chosen code appended. -/
theorem shortenInsert_ok {s : Store} {code url : Str} {now : Nat} {code₂ : Str}
    {s₂ : Store} (h : shortenInsert s code url now = .ok code₂ s₂) :
    code₂ = code ∧
    s₂ = s ++ [{ code := code, target_url := url, total_clicks := 0,
                 last_clicked := none, created_at := now, deleted := false }] := by
  unfold shortenInsert at h
  cases hins : insertRow s code url now with
  | none =>
    rw [hins] at h
    cases h
  | some s3 =>
    rw [hins] at h
    cases h
    unfold insertRow at hins
    split at hins
    · cases hins
    · injection hins with h2
      exact ⟨rfl, h2.symm⟩

/-- Shape of the code the auto-generate branch settles on: either a free
6-character draw from the first ten, or the eleventh draw with a 1–3 digit
decimal suffix. -/
theorem genCode_shape (s : Store) (draw : Nat → Str) (suffix : Nat)
    (hdraw : ∀ i, (draw i).length = 6 ∧ (draw i).all alnumChar = true)
    (hsuf : suffix ≤ 999) :
    (genCode s draw suffix).all alnumChar = true ∧
    6 ≤ (genCode s draw suffix).length ∧ (genCode s draw suffix).length ≤ 9 := by
  by_cases h : ∀ i < 10, existsCode s (draw i) = true
  · have hnone : genLoopAux s draw 0 10 = none := by
      refine genLoopAux_none s draw 10 0 fun k hk => ?_
      rw [Nat.zero_add]
      exact h k hk
    have hgc : genCode s draw suffix = draw 10 ++ decimal suffix := by
      unfold genCode
      rw [hnone]
    obtain ⟨hd1, hd3, hdig⟩ := decimal_bounds suffix (by omega)
    refine ⟨?_, ?_, ?_⟩
    · rw [hgc, List.all_append, (hdraw 10).2, Bool.true_and]
      rw [List.all_eq_true] at hdig ⊢
      exact fun ch hch => digit_alnum (hdig ch hch)
    · rw [hgc, List.length_append, (hdraw 10).1]
      omega
    · rw [hgc, List.length_append, (hdraw 10).1]
      omega
  · push_neg at h
    obtain ⟨i, hi, hne⟩ := h
    have hfree : existsCode s (draw (0 + i)) = false := by
      rw [Nat.zero_add]
      revert hne
      cases existsCode s (draw i) <;> simp
    obtain ⟨k, hk, hres, _, _⟩ := genLoopAux_free s draw 10 0 ⟨i, hi, hfree⟩
    have hgc : genCode s draw suffix = draw (0 + k) := by
      unfold genCode
      rw [hres]
    rw [hgc]
    exact ⟨(hdraw _).2, le_of_eq (hdraw _).1.symm, by rw [(hdraw _).1]; omega⟩

/-- C4: in the auto-generate branch, if any of the first ten fresh draws is
not already present the handler takes the first such draw (a 6-character
code); if all ten collide it falls back to the eleventh fresh draw with a
decimal suffix in 0–999 appended; and a shorten call without a custom code
hands exactly that code to the single `INSERT`. -/
theorem gen_code_spec (s : Store) (draw : Nat → Str) (suffix : Nat)
    (hdraw : ∀ i, (draw i).length = 6 ∧ (draw i).all alnumChar = true)
    (hsuf : suffix ≤ 999) :
    ((∃ i < 10, existsCode s (draw i) = false) →
      ∃ j < 10, genCode s draw suffix = draw j ∧
        existsCode s (draw j) = false ∧
        (∀ m < j, existsCode s (draw m) = true) ∧
        (genCode s draw suffix).length = 6) ∧
    ((∀ i < 10, existsCode s (draw i) = true) →
      genCode s draw suffix = draw 10 ++ decimal suffix ∧
        (draw 10).length = 6 ∧
        1 ≤ (decimal suffix).length ∧ (decimal suffix).length ≤ 3 ∧
        (decimal suffix).all Char.isDigit = true) ∧
    (∀ parse dns now raw, raw ≠ [] →
      isValidUrlResolved parse dns (normalizeUrl raw) = true →
      shorten parse dns draw suffix now s (some raw) none =
        shortenInsert s (genCode s draw suffix) (normalizeUrl raw) now) := by
  refine ⟨?_, ?_, ?_⟩
  · rintro ⟨i, hi, hfree⟩
    have hfree0 : existsCode s (draw (0 + i)) = false := by rwa [Nat.zero_add]
    obtain ⟨k, hk, hres, hfreek, hall⟩ := genLoopAux_free s draw 10 0 ⟨i, hi, hfree0⟩
    have hgc : genCode s draw suffix = draw (0 + k) := by
      unfold genCode
      rw [hres]
    rw [Nat.zero_add] at hgc hfreek
    refine ⟨k, hk, hgc, hfreek, fun m hm => ?_, by rw [hgc]; exact (hdraw k).1⟩
    have := hall m hm
    rwa [Nat.zero_add] at this
  · intro h
    have hnone : genLoopAux s draw 0 10 = none := by
      refine genLoopAux_none s draw 10 0 fun k hk => ?_
      rw [Nat.zero_add]
      exact h k hk
    have hgc : genCode s draw suffix = draw 10 ++ decimal suffix := by
      unfold genCode
      rw [hnone]
    obtain ⟨hd1, hd3, hdig⟩ := decimal_bounds suffix (by omega)
    exact ⟨hgc, (hdraw 10).1, hd1, hd3, hdig⟩
  · intro parse dns now raw hraw hval
    cases raw with
    | nil => exact absurd rfl hraw
    | cons a t =>
      simp [shorten, List.isEmpty, hval]

/-- C4 witness: with a generator stream that always collides on the demo
collision table, the fallback code is the eleventh draw plus the suffix 999;
with a stream whose draws are free, the first draw is taken; and the
auto-branch shorten call hands the generated code to the insert. -/
theorem gen_code_spec_witness :
    (∃ j < 10, genCode demoStore drawQ 5 = drawQ j ∧
      existsCode demoStore (drawQ j) = false ∧
      (∀ m < j, existsCode demoStore (drawQ m) = true) ∧
      (genCode demoStore drawQ 5).length = 6) ∧
    genCode storeColl drawC 999 = drawC 10 ++ decimal 999 ∧
    shorten parseGood dnsYes drawC 999 5 storeColl (some "example.com".toList) none =
      shortenInsert storeColl (genCode storeColl drawC 999)
        (normalizeUrl "example.com".toList) 5 :=
  ⟨(gen_code_spec demoStore drawQ 5 (fun i => ⟨rfl, rfl⟩) (by decide)).1
      ⟨0, by decide, by decide⟩,
   ((gen_code_spec storeColl drawC 999 (fun i => ⟨rfl, rfl⟩) (by decide)).2.1
      (fun i _ => rfl)).1,
   (gen_code_spec storeColl drawC 999 (fun i => ⟨rfl, rfl⟩) (by decide)).2.2
      parseGood dnsYes 5 "example.com".toList (by decide) (by decide)⟩

/-- C3 counterexample: when all ten generator draws collide, the fallback
appends a three-digit suffix to a fresh 6-character draw and shorten stores
the resulting 9-character code — longer than the claimed maximum of 8. -/
theorem stored_code_length_cex :
    shorten parseGood dnsYes drawC 999 5 storeColl (some "example.com".toList) none =
      .ok "aaaaaa999".toList (storeColl ++ [rowCex]) ∧
    ("aaaaaa999".toList).length = 9 ∧
    ¬(("aaaaaa999".toList).length ≤ 8) := by
  decide

/-- C3 (amended): every code shorten stores — custom, generated, or
fallback — consists solely of `[A-Za-z0-9]` characters and has length
between 3 and 9 inclusive, and is the code of the one row appended to the
table. -/
theorem stored_code_alnum_len (parse : Str → Option URLParts) (dns : Str → Bool)
    (draw : Nat → Str) (suffix now : Nat) (s : Store)
    (fullUrl customCode : Option Str) (code : Str) (s₂ : Store)
    (hdraw : ∀ i, (draw i).length = 6 ∧ (draw i).all alnumChar = true)
    (hsuf : suffix ≤ 999)
    (hok : shorten parse dns draw suffix now s fullUrl customCode = .ok code s₂) :
    code.all alnumChar = true ∧ 3 ≤ code.length ∧ code.length ≤ 9 ∧
    ∃ r, s₂ = s ++ [r] ∧ r.code = code := by
  have viaGen : ∀ url₀, shortenInsert s (genCode s draw suffix) url₀ now = .ok code s₂ →
      code.all alnumChar = true ∧ 3 ≤ code.length ∧ code.length ≤ 9 ∧
      ∃ r, s₂ = s ++ [r] ∧ r.code = code := by
    intro url₀ h
    obtain ⟨hc, hs⟩ := shortenInsert_ok h
    subst hc
    obtain ⟨ha, h6, h9⟩ := genCode_shape s draw suffix hdraw hsuf
    exact ⟨ha, by omega, h9, _, hs, rfl⟩
  cases fullUrl with
  | none => cases hok
  | some fu =>
    cases customCode with
    | none =>
      simp only [shorten] at hok
      split at hok
      · cases hok
      · split at hok
        · cases hok
        · exact viaGen _ hok
    | some cc =>
      simp only [shorten] at hok
      split at hok
      · cases hok
      · split at hok
        · cases hok
        · split at hok
          · exact viaGen _ hok
          · split at hok
            · cases hok
            · split at hok
              · cases hok
              · obtain ⟨hc, hs⟩ := shortenInsert_ok hok
                subst hc
                rename_i hvc _
                have hvc2 : validateCustom (trimChars cc) = true := by
                  revert hvc
                  cases validateCustom (trimChars cc) <;> simp
                unfold validateCustom at hvc2
                simp only [Bool.and_eq_true, decide_eq_true_eq] at hvc2
                exact ⟨hvc2.2, hvc2.1.1, by omega, _, hs, rfl⟩

/-- C3 (amended) witness: a concrete custom-code shorten call stores a
5-character alphanumeric code as the code of the appended row. -/
theorem stored_code_alnum_len_witness :
    ("xyz12".toList).all alnumChar = true ∧ 3 ≤ ("xyz12".toList).length ∧
    ("xyz12".toList).length ≤ 9 ∧
    ∃ r, demoStore ++ [rowXyz] = demoStore ++ [r] ∧ r.code = "xyz12".toList :=
  stored_code_alnum_len parseGood dnsYes drawQ 0 5 demoStore
    (some "example.com".toList) (some "xyz12".toList) "xyz12".toList
    (demoStore ++ [rowXyz]) (fun i => ⟨rfl, rfl⟩) (by decide) (by decide)

/-- C6 counterexample: the handler trims the custom code before the syntax
check, so the supplied code ` abc` — non-blank and not matching
`[A-Za-z0-9]{3,8}` because of its leading space — is not rejected with the
format error: the call succeeds and stores the trimmed code `abc`. -/
theorem custom_code_format_cex :
    validateCustom " abc".toList = false ∧
    " abc".toList ≠ ([] : Str) ∧
    shorten parseGood dnsYes drawQ 0 5 [rowOld] (some "example.com".toList)
      (some " abc".toList) = .ok "abc".toList ([rowOld] ++ [rowAbcPad]) ∧
    shorten parseGood dnsYes drawQ 0 5 [rowOld] (some "example.com".toList)
      (some " abc".toList) ≠ .badCodeFormat := by
  decide

/-- C6 (amended): when the URL validates and the supplied custom code trims
to a non-blank string that fails `[A-Za-z0-9]{3,8}`, the call stops with the
format error — before the existence check and before any insert. -/
theorem custom_code_badformat (parse : Str → Option URLParts) (dns : Str → Bool)
    (draw : Nat → Str) (suffix now : Nat) (s : Store) (raw cc : Str)
    (hraw : raw ≠ [])
    (hval : isValidUrlResolved parse dns (normalizeUrl raw) = true)
    (hne : trimChars cc ≠ [])
    (hbad : validateCustom (trimChars cc) = false) :
    shorten parse dns draw suffix now s (some raw) (some cc) = .badCodeFormat := by
  cases raw with
  | nil => exact absurd rfl hraw
  | cons a t =>
    cases htc : trimChars cc with
    | nil => exact absurd htc hne
    | cons b u =>
      rw [htc] at hbad
      simp [shorten, List.isEmpty, hval, htc, hbad]

/-- C6 (amended) witness: shortening a valid URL with the two-character
custom code `ab` fails with the format error. -/
theorem custom_code_badformat_witness :
    shorten parseGood dnsYes drawQ 0 5 demoStore (some "example.com".toList)
      (some "ab".toList) = .badCodeFormat :=
  custom_code_badformat parseGood dnsYes drawQ 0 5 demoStore
    "example.com".toList "ab".toList (by decide) (by decide) (by decide) (by decide)

/-- C9: shorten trims the raw input and prepends `https://` exactly when the
trimmed input carries neither recognized scheme prefix, all before
validation; and whenever the URL parsed from the normalised input has a
protocol other than `http:` or `https:`, the call is rejected as an invalid
URL (so no row is inserted). -/
theorem normalize_scheme_spec (parse : Str → Option URLParts) (dns : Str → Bool)
    (draw : Nat → Str) (suffix now : Nat) (s : Store) (raw : Str)
    (cc : Option Str) :
    (("http://".toList.isPrefixOf (trimChars raw) = true ∨
      "https://".toList.isPrefixOf (trimChars raw) = true) →
      normalizeUrl raw = trimChars raw) ∧
    (("http://".toList.isPrefixOf (trimChars raw) = false ∧
      "https://".toList.isPrefixOf (trimChars raw) = false) →
      normalizeUrl raw = "https://".toList ++ trimChars raw) ∧
    (∀ u, parse (normalizeUrl raw) = some u →
      u.protocol ≠ "http:".toList → u.protocol ≠ "https:".toList → raw ≠ [] →
      shorten parse dns draw suffix now s (some raw) cc = .invalidUrl) := by
  have hnu : normalizeUrl raw =
      if (!"http://".toList.isPrefixOf (trimChars raw) &&
          !"https://".toList.isPrefixOf (trimChars raw)) then
        "https://".toList ++ trimChars raw
      else trimChars raw := rfl
  refine ⟨?_, ?_, ?_⟩
  · intro h
    rcases h with h | h
    · rw [hnu, h]
      rfl
    · rw [hnu, h]
      cases hp1 : "http://".toList.isPrefixOf (trimChars raw) <;> rfl
  · intro h
    rw [hnu, h.1, h.2]
    rfl
  · intro u hp hp1 hp2 hraw
    have hq1 := hp1
    have hq2 := hp2
    simp only [String.toList] at hq1 hq2
    have hval : isValidUrlResolved parse dns (normalizeUrl raw) = false := by
      simp [isValidUrlResolved, hp, hq1, hq2]
    cases raw with
    | nil => exact absurd rfl hraw
    | cons a t =>
      simp [shorten, List.isEmpty, hval]

/-- C9 witness: a padded input is trimmed then prefixed; an input already
carrying `http://` is left as its trimmed self; and when the parser yields
an `ftp:` URL the call is rejected as an invalid URL. -/
theorem normalize_scheme_spec_witness :
    normalizeUrl " example.com".toList = "https://".toList ++ trimChars " example.com".toList ∧
    normalizeUrl "http://x.com".toList = trimChars "http://x.com".toList ∧
    shorten parseFtp dnsYes drawQ 0 5 demoStore (some "ftp://example.com".toList) none =
      .invalidUrl :=
  ⟨(normalize_scheme_spec parseFtp dnsYes drawQ 0 5 demoStore " example.com".toList
      none).2.1 ⟨by decide, by decide⟩,
   (normalize_scheme_spec parseFtp dnsYes drawQ 0 5 demoStore "http://x.com".toList
      none).1 (Or.inl (by decide)),
   (normalize_scheme_spec parseFtp dnsYes drawQ 0 5 demoStore "ftp://example.com".toList
      none).2.2 { protocol := "ftp:".toList, hostname := "example.com".toList }
      rfl (by decide) (by decide) (by decide)⟩

/-- The hostname character class `[a-zA-Z0-9.-]`, spelt out. -/
theorem hostnameCharOk_iff (ch : Char) :
    hostnameCharOk ch = true ↔
      (('A' ≤ ch ∧ ch ≤ 'Z') ∨ ('a' ≤ ch ∧ ch ≤ 'z') ∨ ('0' ≤ ch ∧ ch ≤ '9') ∨
        ch = '.' ∨ ch = '-') := by
  simp only [hostnameCharOk, Char.isAlpha, Char.isUpper, Char.isLower, Char.isDigit,
    Bool.or_eq_true, Bool.and_eq_true, decide_eq_true_eq, beq_iff_eq]
  tauto

/-- The per-label check of the hostname validator, spelt out. -/
theorem labelOk_iff (lab : Str) :
    labelOk lab = true ↔
      (lab ≠ [] ∧ startsWithChar lab '-' = false ∧ endsWithChar lab '-' = false) := by
  simp only [labelOk, Bool.and_eq_true, Bool.not_eq_true', List.isEmpty_eq_false,
    and_assoc]

/-- C8: with the parsed URL in hand, validation fails whenever the hostname
is empty, lacks a dot, ends in a dot, contains a character outside
letters/digits/hyphen/dot, or has an empty label or a label starting or
ending in a hyphen; and a URL that passes validation satisfies every one of
those hostname conditions. -/
theorem hostname_validation_spec (parse : Str → Option URLParts) (dns : Str → Bool)
    (raw : Str) (u : URLParts) (hp : parse (normalizeUrl raw) = some u) :
    ((u.hostname = [] ∨ u.hostname.contains '.' = false ∨
      endsWithChar u.hostname '.' = true ∨
      (∃ ch ∈ u.hostname, ¬(('A' ≤ ch ∧ ch ≤ 'Z') ∨ ('a' ≤ ch ∧ ch ≤ 'z') ∨
        ('0' ≤ ch ∧ ch ≤ '9') ∨ ch = '.' ∨ ch = '-')) ∨
      (∃ lab ∈ splitOnDot u.hostname, lab = [] ∨ startsWithChar lab '-' = true ∨
        endsWithChar lab '-' = true)) →
      isValidUrlResolved parse dns (normalizeUrl raw) = false) ∧
    (isValidUrlResolved parse dns (normalizeUrl raw) = true →
      (u.hostname ≠ [] ∧ u.hostname.contains '.' = true ∧
        endsWithChar u.hostname '.' = false ∧
        (∀ ch ∈ u.hostname, ('A' ≤ ch ∧ ch ≤ 'Z') ∨ ('a' ≤ ch ∧ ch ≤ 'z') ∨
          ('0' ≤ ch ∧ ch ≤ '9') ∨ ch = '.' ∨ ch = '-') ∧
        ∀ lab ∈ splitOnDot u.hostname, lab ≠ [] ∧ startsWithChar lab '-' = false ∧
          endsWithChar lab '-' = false)) := by
  have good : isValidUrlResolved parse dns (normalizeUrl raw) = true →
      (u.hostname ≠ [] ∧ u.hostname.contains '.' = true ∧
        endsWithChar u.hostname '.' = false ∧
        (∀ ch ∈ u.hostname, ('A' ≤ ch ∧ ch ≤ 'Z') ∨ ('a' ≤ ch ∧ ch ≤ 'z') ∨
          ('0' ≤ ch ∧ ch ≤ '9') ∨ ch = '.' ∨ ch = '-') ∧
        ∀ lab ∈ splitOnDot u.hostname, lab ≠ [] ∧ startsWithChar lab '-' = false ∧
          endsWithChar lab '-' = false) := by
    intro hv
    unfold isValidUrlResolved at hv
    rw [hp] at hv
    simp only [] at hv
    split_ifs at hv with h1 h2 h3 h4 h5
    simp only [Bool.not_eq_true, Bool.or_eq_false_iff, List.isEmpty_eq_false,
      Bool.not_eq_false] at h2
    refine ⟨h2.1, by simpa using h2.2, by simpa using h3, ?_, ?_⟩
    · have h4b : u.hostname.all hostnameCharOk = true := by
        revert h4
        cases u.hostname.all hostnameCharOk <;> simp
      rw [List.all_eq_true] at h4b
      exact fun ch hch => (hostnameCharOk_iff ch).mp (h4b ch hch)
    · have h5b : (splitOnDot u.hostname).all labelOk = true := by
        revert h5
        cases (splitOnDot u.hostname).all labelOk <;> simp
      rw [List.all_eq_true] at h5b
      exact fun lab hlab => (labelOk_iff lab).mp (h5b lab hlab)
  refine ⟨?_, good⟩
  intro hbad
  rcases hb : isValidUrlResolved parse dns (normalizeUrl raw) with h | h
  · rfl
  · exfalso
    obtain ⟨hne, hdot, hend, hchars, hlabs⟩ := good hb
    rcases hbad with h | h | h | ⟨ch, hch, hnotin⟩ | ⟨lab, hlab, hbadlab⟩
    · exact hne h
    · rw [hdot] at h
      cases h
    · rw [hend] at h
      cases h
    · exact hnotin (hchars ch hch)
    · obtain ⟨hl1, hl2, hl3⟩ := hlabs lab hlab
      rcases hbadlab with h | h | h
      · exact hl1 h
      · rw [hl2] at h
        cases h
      · rw [hl3] at h
        cases h

/-- C8 witness: a hostname whose first label starts with a hyphen is
rejected, and a hostname that validates satisfies all the conditions at a
concrete input. -/
theorem hostname_validation_spec_witness :
    isValidUrlResolved parseBadHost dnsYes (normalizeUrl "x.example".toList) = false ∧
    ("example.com".toList ≠ [] ∧ ("example.com".toList).contains '.' = true ∧
      endsWithChar "example.com".toList '.' = false ∧
      (∀ ch ∈ "example.com".toList, ('A' ≤ ch ∧ ch ≤ 'Z') ∨ ('a' ≤ ch ∧ ch ≤ 'z') ∨
        ('0' ≤ ch ∧ ch ≤ '9') ∨ ch = '.' ∨ ch = '-') ∧
      ∀ lab ∈ splitOnDot "example.com".toList, lab ≠ [] ∧
        startsWithChar lab '-' = false ∧ endsWithChar lab '-' = false) :=
  ⟨(hostname_validation_spec parseBadHost dnsYes "x.example".toList
      { protocol := "https:".toList, hostname := "-a.b".toList } rfl).1
      (Or.inr (Or.inr (Or.inr (Or.inr (by decide))))),
   (hostname_validation_spec parseGood dnsYes "x.example".toList
      { protocol := "https:".toList, hostname := "example.com".toList } rfl).2
      (by decide)⟩

/-- C10 counterexample: the handler stores the normalised raw input
verbatim and never re-serializes it, so for the raw input
`example.com:443/path` the stored `target_url` keeps the explicit default
port `:443`, while the fully serialized form the claim promises omits it. -/
theorem stored_url_serialization_cex :
    shorten parseGood dnsYes drawQ 0 5 [] (some "example.com:443/path".toList) none =
      .ok "qqqqqq".toList [rowPort] ∧
    rowPort.target_url = "https://example.com:443/path".toList ∧
    serializeUrl "https".toList "example.com".toList (some 443) "/path".toList =
      "https://example.com/path".toList ∧
    rowPort.target_url ≠
      serializeUrl "https".toList "example.com".toList (some 443) "/path".toList := by
  decide

/-- C10 (amended): whatever shorten stores as `target_url` is exactly the
normalised raw input — the trimmed input with `https://` prepended when no
recognized scheme prefix is present — taken verbatim, with no
re-serialization. -/
theorem stored_url_is_normalized (parse : Str → Option URLParts) (dns : Str → Bool)
    (draw : Nat → Str) (suffix now : Nat) (s : Store) (raw : Str)
    (customCode : Option Str) (code : Str) (s₂ : Store)
    (hok : shorten parse dns draw suffix now s (some raw) customCode = .ok code s₂) :
    ∃ r, s₂ = s ++ [r] ∧ r.target_url = normalizeUrl raw := by
  have viaIns : ∀ c₀, shortenInsert s c₀ (normalizeUrl raw) now = .ok code s₂ →
      ∃ r, s₂ = s ++ [r] ∧ r.target_url = normalizeUrl raw := by
    intro c₀ h
    obtain ⟨_, hs⟩ := shortenInsert_ok h
    exact ⟨_, hs, rfl⟩
  cases customCode with
  | none =>
    simp only [shorten] at hok
    split at hok
    · cases hok
    · split at hok
      · cases hok
      · exact viaIns _ hok
  | some cc =>
    simp only [shorten] at hok
    split at hok
    · cases hok
    · split at hok
      · cases hok
      · split at hok
        · exact viaIns _ hok
        · split at hok
          · cases hok
          · split at hok
            · cases hok
            · exact viaIns _ hok

/-- C10 (amended) witness: shortening the padded raw input ` example.com`
stores `https://example.com` — its trimmed, prefixed, un-reserialized
form — as the target URL of the inserted row. -/
theorem stored_url_is_normalized_witness :
    ∃ r, [rowTrim] = [] ++ [r] ∧
      r.target_url = normalizeUrl " example.com".toList :=
  stored_url_is_normalized parseGood dnsYes drawQ 0 5 [] " example.com".toList
    none "qqqqqq".toList [rowTrim] (by decide)

/-- C7 witness: on the demo table, deleting a present code twice equals
deleting it once, and deleting an absent code changes nothing. -/
theorem mark_deleted_spec_witness :
    mark_deleted demoStore "zzz".toList = demoStore ∧
    mark_deleted (mark_deleted demoStore "abc".toList) "abc".toList =
      mark_deleted demoStore "abc".toList ∧
    { rowAbc with deleted := true } ∈ mark_deleted demoStore "abc".toList :=
  ⟨(mark_deleted_spec demoStore "zzz".toList).2.1 (by decide),
   (mark_deleted_spec demoStore "abc".toList).1,
   (mark_deleted_spec demoStore "abc".toList).2.2.1 rowAbc (by decide) (by decide)⟩

end TinyLink
